import Mathlib

/-!
Shallow embedding of `src/app.py` (SentinelSLR): a trading-chart dashboard
with a JSON config of per-rule win/loss counters, a SQLite trade log with
nullable outcome, an automated audit pass that closes pending trades
against a new price, and an analyst step that picks the best rule and
parses an AI response with `json.loads`.

Python floats are modelled as `Rat`; the JSON config object and its
insertion order as an association list; SQLite rows as a `List Trade`;
a raised `KeyError` as `Option.none`.
-/

/-- Per-rule statistics entry of the config, `{"wins": w, "losses": l}`. -/
structure RuleStats where
  wins : Nat
  losses : Nat
deriving DecidableEq, Repr

/-- The JSON configuration document `sentinel_config.json`: a version number
and the `rule_stats` object, kept in insertion order as an association list
(Python dicts preserve insertion order). -/
structure Config where
  version : Rat
  rule_stats : List (String × RuleStats)
deriving DecidableEq, Repr

/-- One row of the `slr_log` table (see `init_db`, lines 31-39 of app.py).
`outcome` is NULL while the trade is pending. -/
structure Trade where
  id : Nat
  timestamp : String
  verdict_text : String
  outcome : Option String
  rule_applied : String
  entry_price : Rat
  target_price : Rat
  stop_price : Rat
deriving DecidableEq, Repr

/-- Dict lookup `m[r]` on the rule_stats object: first entry with the key. -/
def lookupRule : List (String × RuleStats) → String → Option RuleStats
  | [], _ => none
  | (k, v) :: m, r => if k = r then some v else lookupRule m r

/-- The in-place update `config['rule_stats'][r]['wins'] += 1` (app.py line 52).
Returns `none` when `r` is not a key, modelling the raised `KeyError`. -/
def bumpWins : List (String × RuleStats) → String → Option (List (String × RuleStats))
  | [], _ => none
  | (k, v) :: m, r =>
    if k = r then some ((k, { v with wins := v.wins + 1 }) :: m)
    else (bumpWins m r).map (fun m2 => (k, v) :: m2)

/-- The in-place update `config['rule_stats'][r]['losses'] += 1` (app.py line 56).
Returns `none` when `r` is not a key, modelling the raised `KeyError`. -/
def bumpLosses : List (String × RuleStats) → String → Option (List (String × RuleStats))
  | [], _ => none
  | (k, v) :: m, r =>
    if k = r then some ((k, { v with losses := v.losses + 1 }) :: m)
    else (bumpLosses m r).map (fun m2 => (k, v) :: m2)

/-- `load_config` (app.py lines 17-24): the file system state is `none` when
`sentinel_config.json` does not exist, otherwise `some` stored config.
A missing file yields the default document literally written in the code. -/
def load_config (file : Option Config) : Config :=
  match file with
  | none =>
      { version := 13/10,
        rule_stats := [("Avoid chasing vertical moves.", { wins := 0, losses := 0 }),
                       ("Check RSI for 70+ levels.", { wins := 0, losses := 0 })] }
  | some c => c

/-- `init_db` (app.py lines 31-39): `CREATE TABLE IF NOT EXISTS slr_log`.
The database file state is `none` when `sentinel_slr.db` has been deleted;
creation then yields an empty table, and an existing table is untouched. -/
def init_db (dbFile : Option (List Trade)) : List Trade :=
  match dbFile with
  | none => []
  | some log => log

/-- The body of the audit loop (app.py lines 48-60) for one pending-query row:
win branch first (`current_price >= target_price`), then the loss branch
(`current_price <= stop_price`), else the trade stays pending. A missing
rule key makes the counter update raise, modelled as `none`. The pending
query `WHERE outcome IS NULL` means settled rows are never visited, which
is the same as visiting them and leaving everything unchanged. -/
def auditTrade (price : Rat) (t : Trade) (cfg : Config) : Option (Trade × Config) :=
  match t.outcome with
  | some _ => some (t, cfg)
  | none =>
    if t.target_price ≤ price then
      match bumpWins cfg.rule_stats t.rule_applied with
      | some m => some ({ t with outcome := some "Win ✅" }, { cfg with rule_stats := m })
      | none => none
    else if price ≤ t.stop_price then
      match bumpLosses cfg.rule_stats t.rule_applied with
      | some m => some ({ t with outcome := some "Loss ❌" }, { cfg with rule_stats := m })
      | none => none
    else some (t, cfg)

/-- `automated_audit` (app.py lines 41-64) over the rows of the trade log in
query order, threading the config through the loop. `none` models the pass
aborting with a `KeyError` (nothing is committed in that case). -/
def automated_audit (price : Rat) : List Trade → Config → Option (List Trade × Config)
  | [], cfg => some ([], cfg)
  | t :: ts, cfg =>
    match auditTrade price t cfg with
    | none => none
    | some (t2, cfg2) =>
      match automated_audit price ts cfg2 with
      | none => none
      | some (ts2, cfg3) => some (t2 :: ts2, cfg3)

/-- What the audit does to a single row, as a pure function of price and row
(the row part of `auditTrade` does not depend on the config). -/
def tradeResult (price : Rat) (t : Trade) : Trade :=
  match t.outcome with
  | some _ => t
  | none =>
    if t.target_price ≤ price then { t with outcome := some "Win ✅" }
    else if price ≤ t.stop_price then { t with outcome := some "Loss ❌" }
    else t

/-- Does the audit at `price` close pending trade `t` as a win for rule `r`? -/
def winHit (price : Rat) (r : String) (t : Trade) : Bool :=
  t.outcome.isNone && decide (t.rule_applied = r) && decide (t.target_price ≤ price)

/-- Does the audit at `price` close pending trade `t` as a loss for rule `r`?
The win branch is checked first in the code, hence the `¬ target ≤ price`. -/
def lossHit (price : Rat) (r : String) (t : Trade) : Bool :=
  t.outcome.isNone && decide (t.rule_applied = r) &&
    decide (¬ t.target_price ≤ price) && decide (price ≤ t.stop_price)

/-- Number of trades in `log` the audit at `price` closes as wins for rule `r`. -/
def winHits (price : Rat) (r : String) (log : List Trade) : Nat :=
  log.countP (winHit price r)

/-- Number of trades in `log` the audit at `price` closes as losses for rule `r`. -/
def lossHits (price : Rat) (r : String) (log : List Trade) : Nat :=
  log.countP (lossHit price r)

theorem bumpWins_eq_none (m : List (String × RuleStats)) (r : String) :
    bumpWins m r = none ↔ lookupRule m r = none := by
  induction m with
  | nil => simp [bumpWins, lookupRule]
  | cons kv m ih =>
    obtain ⟨k, v⟩ := kv
    by_cases h : k = r <;> simp [bumpWins, lookupRule, h, ih, Option.map_eq_none']

theorem bumpLosses_eq_none (m : List (String × RuleStats)) (r : String) :
    bumpLosses m r = none ↔ lookupRule m r = none := by
  induction m with
  | nil => simp [bumpLosses, lookupRule]
  | cons kv m ih =>
    obtain ⟨k, v⟩ := kv
    by_cases h : k = r <;> simp [bumpLosses, lookupRule, h, ih, Option.map_eq_none']

theorem lookupRule_bumpWins (m m2 : List (String × RuleStats)) (r : String)
    (h : bumpWins m r = some m2) (x : String) :
    lookupRule m2 x = if r = x
      then (lookupRule m x).map (fun s => { s with wins := s.wins + 1 })
      else lookupRule m x := by
  induction m generalizing m2 with
  | nil => simp [bumpWins] at h
  | cons kv m ih =>
    obtain ⟨k, v⟩ := kv
    by_cases hk : k = r
    · simp only [bumpWins, if_pos hk, Option.some.injEq] at h
      subst h
      subst hk
      by_cases hx : k = x
      · subst hx
        simp [lookupRule]
      · simp [lookupRule, hx]
    · simp only [bumpWins, if_neg hk, Option.map_eq_some'] at h
      obtain ⟨m3, hm3, rfl⟩ := h
      by_cases hx : k = x
      · subst hx
        have hrx : ¬ r = k := fun h => hk h.symm
        simp [lookupRule, hrx]
      · simp [lookupRule, hx, ih m3 hm3]

theorem lookupRule_bumpLosses (m m2 : List (String × RuleStats)) (r : String)
    (h : bumpLosses m r = some m2) (x : String) :
    lookupRule m2 x = if r = x
      then (lookupRule m x).map (fun s => { s with losses := s.losses + 1 })
      else lookupRule m x := by
  induction m generalizing m2 with
  | nil => simp [bumpLosses] at h
  | cons kv m ih =>
    obtain ⟨k, v⟩ := kv
    by_cases hk : k = r
    · simp only [bumpLosses, if_pos hk, Option.some.injEq] at h
      subst h
      subst hk
      by_cases hx : k = x
      · subst hx
        simp [lookupRule]
      · simp [lookupRule, hx]
    · simp only [bumpLosses, if_neg hk, Option.map_eq_some'] at h
      obtain ⟨m3, hm3, rfl⟩ := h
      by_cases hx : k = x
      · subst hx
        have hrx : ¬ r = k := fun h => hk h.symm
        simp [lookupRule, hrx]
      · simp [lookupRule, hx, ih m3 hm3]

theorem auditTrade_fst (price : Rat) (t : Trade) (cfg : Config) (t2 : Trade) (cfg2 : Config)
    (h : auditTrade price t cfg = some (t2, cfg2)) : t2 = tradeResult price t := by
  cases ho : t.outcome with
  | some s =>
    simp [auditTrade, ho] at h
    rw [← h.1]
    simp [tradeResult, ho]
  | none =>
    by_cases hw : t.target_price ≤ price
    · cases hbw : bumpWins cfg.rule_stats t.rule_applied with
      | none => simp [auditTrade, ho, hw, hbw] at h
      | some m =>
        simp [auditTrade, ho, hw, hbw] at h
        simp [tradeResult, ho, hw, ← h.1]
    · by_cases hl : price ≤ t.stop_price
      · cases hbl : bumpLosses cfg.rule_stats t.rule_applied with
        | none => simp [auditTrade, ho, hw, hl, hbl] at h
        | some m =>
          simp [auditTrade, ho, hw, hl, hbl] at h
          simp [tradeResult, ho, hw, hl, ← h.1]
      · simp [auditTrade, ho, hw, hl] at h
        rw [← h.1]
        simp [tradeResult, ho, hw, hl]

theorem auditTrade_lookup (price : Rat) (t : Trade) (cfg : Config) (t2 : Trade) (cfg2 : Config)
    (h : auditTrade price t cfg = some (t2, cfg2)) (x : String) :
    lookupRule cfg2.rule_stats x =
      if winHit price x t then
        (lookupRule cfg.rule_stats x).map (fun s => { s with wins := s.wins + 1 })
      else if lossHit price x t then
        (lookupRule cfg.rule_stats x).map (fun s => { s with losses := s.losses + 1 })
      else lookupRule cfg.rule_stats x := by
  cases ho : t.outcome with
  | some s =>
    simp [auditTrade, ho] at h
    simp [winHit, lossHit, ho, ← h.2]
  | none =>
    by_cases hw : t.target_price ≤ price
    · cases hbw : bumpWins cfg.rule_stats t.rule_applied with
      | none => simp [auditTrade, ho, hw, hbw] at h
      | some m =>
        simp [auditTrade, ho, hw, hbw] at h
        have hlk := lookupRule_bumpWins cfg.rule_stats m t.rule_applied hbw x
        rw [← h.2]
        by_cases hx : t.rule_applied = x
        · simp [winHit, ho, hx, hw, hlk]
        · simp [winHit, lossHit, ho, hx, hlk]
    · by_cases hl : price ≤ t.stop_price
      · cases hbl : bumpLosses cfg.rule_stats t.rule_applied with
        | none => simp [auditTrade, ho, hw, hl, hbl] at h
        | some m =>
          simp [auditTrade, ho, hw, hl, hbl] at h
          have hlk := lookupRule_bumpLosses cfg.rule_stats m t.rule_applied hbl x
          rw [← h.2]
          by_cases hx : t.rule_applied = x
          · simp [winHit, lossHit, ho, hx, hw, hl, hlk]
          · simp [winHit, lossHit, ho, hx, hlk]
      · simp [auditTrade, ho, hw, hl] at h
        simp [winHit, lossHit, ho, hw, hl, ← h.2]

theorem automated_audit_trades (price : Rat) (log : List Trade) :
    ∀ (cfg : Config) (log2 : List Trade) (cfg2 : Config),
      automated_audit price log cfg = some (log2, cfg2) →
      log2 = List.map (tradeResult price) log := by
  induction log with
  | nil =>
    intro cfg log2 cfg2 h
    simp [automated_audit] at h
    rw [h.1]
    simp
  | cons t ts ih =>
    intro cfg log2 cfg2 h
    unfold automated_audit at h
    cases hat : auditTrade price t cfg with
    | none => simp [hat] at h
    | some p =>
      obtain ⟨t2, cfgm⟩ := p
      rw [hat] at h
      dsimp only at h
      cases hrest : automated_audit price ts cfgm with
      | none => rw [hrest] at h; simp at h
      | some q =>
        obtain ⟨ts2, cfg3⟩ := q
        rw [hrest] at h
        simp only [Option.some.injEq, Prod.mk.injEq] at h
        obtain ⟨h1, h2⟩ := h
        rw [← h1]
        simp only [List.map_cons]
        rw [auditTrade_fst price t cfg t2 cfgm hat, ih cfgm ts2 cfg3 hrest]

theorem winHit_not_lossHit (price : Rat) (r : String) (t : Trade)
    (h : winHit price r t = true) : lossHit price r t = false := by
  simp only [winHit, Bool.and_eq_true, decide_eq_true_eq] at h
  simp [lossHit, h.2]

theorem automated_audit_lookup (price : Rat) (log : List Trade) :
    ∀ (cfg : Config) (log2 : List Trade) (cfg2 : Config) (r : String) (s : RuleStats),
      automated_audit price log cfg = some (log2, cfg2) →
      lookupRule cfg.rule_stats r = some s →
      lookupRule cfg2.rule_stats r =
        some { wins := s.wins + winHits price r log,
               losses := s.losses + lossHits price r log } := by
  induction log with
  | nil =>
    intro cfg log2 cfg2 r s h hs
    simp [automated_audit] at h
    rw [← h.2]
    simp [winHits, lossHits, hs]
  | cons t ts ih =>
    intro cfg log2 cfg2 r s h hs
    unfold automated_audit at h
    cases hat : auditTrade price t cfg with
    | none => simp [hat] at h
    | some p =>
      obtain ⟨t2, cfgm⟩ := p
      rw [hat] at h
      dsimp only at h
      cases hrest : automated_audit price ts cfgm with
      | none => rw [hrest] at h; simp at h
      | some q =>
        obtain ⟨ts2, cfg3⟩ := q
        rw [hrest] at h
        simp only [Option.some.injEq, Prod.mk.injEq] at h
        obtain ⟨h1, h2⟩ := h
        have hm := auditTrade_lookup price t cfg t2 cfgm hat r
        rw [hs] at hm
        have hsm : lookupRule cfgm.rule_stats r =
            some { wins := s.wins + (if winHit price r t then 1 else 0),
                   losses := s.losses + (if lossHit price r t then 1 else 0) } := by
          rw [hm]
          cases hwb : winHit price r t
          · cases hlb : lossHit price r t <;> simp
          · simp [winHit_not_lossHit price r t hwb]
        have htail := ih cfgm ts2 cfg3 r _ hrest hsm
        rw [← h2, htail]
        simp only [winHits, lossHits, List.countP_cons, Option.some.injEq, RuleStats.mk.injEq]
        cases hwb : winHit price r t
        · cases hlb : lossHit price r t <;> (simp; try omega)
        · have hlb := winHit_not_lossHit price r t hwb
          simp [hlb]
          omega

theorem auditTrade_lookup_isSome (price : Rat) (t : Trade) (cfg : Config)
    (t2 : Trade) (cfg2 : Config) (h : auditTrade price t cfg = some (t2, cfg2)) (x : String) :
    (lookupRule cfg2.rule_stats x).isSome = (lookupRule cfg.rule_stats x).isSome := by
  rw [auditTrade_lookup price t cfg t2 cfg2 h x]
  cases hwb : winHit price x t <;> cases hlb : lossHit price x t <;>
    cases hl : lookupRule cfg.rule_stats x <;> simp

theorem automated_audit_missing_rule (price : Rat) (t : Trade)
    (hpend : t.outcome = none)
    (hhit : t.target_price ≤ price ∨ price ≤ t.stop_price) :
    ∀ (l1 : List Trade) (cfg : Config),
      lookupRule cfg.rule_stats t.rule_applied = none →
      ∀ (l2 : List Trade), automated_audit price (l1 ++ t :: l2) cfg = none := by
  intro l1
  induction l1 with
  | nil =>
    intro cfg hmiss l2
    have hfail : auditTrade price t cfg = none := by
      rcases hhit with hw | hl
      · simp [auditTrade, hpend, hw, (bumpWins_eq_none _ _).mpr hmiss]
      · by_cases hw : t.target_price ≤ price
        · simp [auditTrade, hpend, hw, (bumpWins_eq_none _ _).mpr hmiss]
        · simp [auditTrade, hpend, hw, hl, (bumpLosses_eq_none _ _).mpr hmiss]
    simp [automated_audit, hfail]
  | cons u l1 ih =>
    intro cfg hmiss l2
    simp only [List.cons_append]
    unfold automated_audit
    cases hau : auditTrade price u cfg with
    | none => rfl
    | some p =>
      obtain ⟨u2, cfgm⟩ := p
      have hmiss2 : lookupRule cfgm.rule_stats t.rule_applied = none := by
        have hsame := auditTrade_lookup_isSome price u cfg u2 cfgm hau t.rule_applied
        cases hcm : lookupRule cfgm.rule_stats t.rule_applied with
        | none => rfl
        | some v => rw [hcm, hmiss] at hsame; simp at hsame
      dsimp only
      rw [ih cfgm hmiss2 l2]

theorem automated_audit_isSome (price : Rat) (log : List Trade) :
    ∀ (cfg : Config),
      (∀ t ∈ log, t.outcome = none → (lookupRule cfg.rule_stats t.rule_applied).isSome) →
      (automated_audit price log cfg).isSome := by
  induction log with
  | nil =>
    intro cfg _
    simp [automated_audit]
  | cons t ts ih =>
    intro cfg hall
    have h1 : (auditTrade price t cfg).isSome := by
      cases ho : t.outcome with
      | some s => simp [auditTrade, ho]
      | none =>
        have hk := hall t (by simp) ho
        by_cases hw : t.target_price ≤ price
        · cases hbw : bumpWins cfg.rule_stats t.rule_applied with
          | none => rw [bumpWins_eq_none] at hbw; rw [hbw] at hk; simp at hk
          | some m => simp [auditTrade, ho, hw, hbw]
        · by_cases hl : price ≤ t.stop_price
          · cases hbl : bumpLosses cfg.rule_stats t.rule_applied with
            | none => rw [bumpLosses_eq_none] at hbl; rw [hbl] at hk; simp at hk
            | some m => simp [auditTrade, ho, hw, hl, hbl]
          · simp [auditTrade, ho, hw, hl]
    obtain ⟨p, hp⟩ := Option.isSome_iff_exists.mp h1
    obtain ⟨t2, cfgm⟩ := p
    have hall2 : ∀ u ∈ ts, u.outcome = none →
        (lookupRule cfgm.rule_stats u.rule_applied).isSome := by
      intro u hu hou
      rw [auditTrade_lookup_isSome price t cfg t2 cfgm hp u.rule_applied]
      exact hall u (by simp [hu]) hou
    have h2 := ih cfgm hall2
    obtain ⟨q, hq⟩ := Option.isSome_iff_exists.mp h2
    obtain ⟨ts2, cfg3⟩ := q
    simp [automated_audit, hp, hq]

/-- The key of Python's `max(rules, key=...)` (app.py line 93): the
Laplace-smoothed win rate `(wins + 1) / (wins + losses + 1)`. -/
def smoothedRate (s : RuleStats) : Rat :=
  ((s.wins : Rat) + 1) / ((s.wins : Rat) + (s.losses : Rat) + 1)

/-- Python's `max` over the remaining dict entries: keeps the current best
and replaces it only on a strictly greater key value, so the first
maximiser in insertion order wins. -/
def maxBy (cur : String × RuleStats) : List (String × RuleStats) → String × RuleStats
  | [] => cur
  | x :: xs => if smoothedRate cur.2 < smoothedRate x.2 then maxBy x xs else maxBy cur xs

/-- `best_rule = max(rules, key=lambda x: (rules[x]['wins']+1)/(rules[x]['wins']+rules[x]['losses']+1))`
(app.py line 93). Python's `max` raises on an empty dict, modelled as `none`. -/
def bestRule : List (String × RuleStats) → Option (String × RuleStats)
  | [] => none
  | x :: xs => some (maxBy x xs)

/-- The f-string prompt of app.py lines 102-103, parameterised by the chosen rule. -/
def analysisPrompt (best : String) : String :=
  "Rule: " ++ best ++ ". Analyze this chart.\n                Return ONLY JSON: " ++
    "\x7b\"verdict\": \"BUY/SELL/WAIT\", \"price\": float, \"target\": float, " ++
    "\"stop\": float, \"confidence\": int, \"logic\": \"1 sentence\"\x7d"

/-- The fields render_analyst reads out of the parsed AI response. -/
structure TradeData where
  verdict : String
  price : Rat
  target : Rat
  stop : Rat
  confidence : Int
  logic : String
deriving DecidableEq, Repr

/-- The INSERT of app.py lines 113-114: the new pending trade row built from
the parsed response, with `rule_applied` set to the chosen best rule and
`outcome` left NULL. `id` stands for the auto-increment key. -/
def logNewTrade (id : Nat) (now : String) (best : String) (d : TradeData) : Trade :=
  { id := id, timestamp := now, verdict_text := d.logic, outcome := none,
    rule_applied := best, entry_price := d.price, target_price := d.target,
    stop_price := d.stop }

/-- Dict deletion `del stats[r]` on the rule_stats object. -/
def dictRemove : List (String × RuleStats) → String → List (String × RuleStats)
  | [], _ => []
  | (k, v) :: m, r => if k = r then dictRemove m r else (k, v) :: dictRemove m r

/-- In-place overwrite of the entry with key `k` (keys are unique in a dict). -/
def dictOverwrite : List (String × RuleStats) → String → RuleStats → List (String × RuleStats)
  | [], _, _ => []
  | (a, b) :: m, k, v =>
    if a = k then (k, v) :: dictOverwrite m k v else (a, b) :: dictOverwrite m k v

/-- Dict assignment `stats[k] = v`: overwrite in place when the key exists,
otherwise append (insertion order). -/
def dictInsert (m : List (String × RuleStats)) (k : String) (v : RuleStats) :
    List (String × RuleStats) :=
  if (lookupRule m k).isSome then dictOverwrite m k v else m ++ [(k, v)]

/-- Modelled from the spec: the "evolution" action is described in spec.md
(§1, §3, glossary) but its code is not part of `src/app.py`, the only
source file present. Per the spec it "deletes the worst rule's entry and
inserts a new one under AI-suggested text": given the worst-performing
rule's key and the AI-suggested replacement text, it removes the worst
entry from `rule_stats` and inserts a fresh `{wins: 0, losses: 0}` entry
under the suggested text. -/
def evolveConfig (cfg : Config) (worst suggestion : String) : Config :=
  { cfg with rule_stats :=
      dictInsert (dictRemove cfg.rule_stats worst) suggestion { wins := 0, losses := 0 } }

theorem maxBy_mem (xs : List (String × RuleStats)) :
    ∀ cur, maxBy cur xs = cur ∨ maxBy cur xs ∈ xs := by
  induction xs with
  | nil => intro cur; left; rfl
  | cons x xs ih =>
    intro cur
    by_cases h : smoothedRate cur.2 < smoothedRate x.2
    · simp only [maxBy, if_pos h]
      rcases ih x with h2 | h2
      · right; rw [h2]; exact List.mem_cons_self x xs
      · right; exact List.mem_cons_of_mem x h2
    · simp only [maxBy, if_neg h]
      rcases ih cur with h2 | h2
      · left; exact h2
      · right; exact List.mem_cons_of_mem x h2

theorem maxBy_le (xs : List (String × RuleStats)) :
    ∀ cur, smoothedRate cur.2 ≤ smoothedRate (maxBy cur xs).2 ∧
      ∀ p ∈ xs, smoothedRate p.2 ≤ smoothedRate (maxBy cur xs).2 := by
  induction xs with
  | nil => intro cur; exact ⟨le_refl _, by simp⟩
  | cons x xs ih =>
    intro cur
    by_cases h : smoothedRate cur.2 < smoothedRate x.2
    · simp only [maxBy, if_pos h]
      obtain ⟨h1, h2⟩ := ih x
      refine ⟨le_trans (le_of_lt h) h1, ?_⟩
      intro p hp
      rcases List.mem_cons.mp hp with rfl | hp
      · exact h1
      · exact h2 p hp
    · simp only [maxBy, if_neg h]
      obtain ⟨h1, h2⟩ := ih cur
      refine ⟨h1, ?_⟩
      intro p hp
      rcases List.mem_cons.mp hp with rfl | hp
      · exact le_trans (le_of_not_lt h) h1
      · exact h2 p hp

theorem lookupRule_dictRemove (m : List (String × RuleStats)) (r : String) :
    lookupRule (dictRemove m r) r = none := by
  induction m with
  | nil => rfl
  | cons kv m ih =>
    obtain ⟨k, v⟩ := kv
    by_cases h : k = r
    · simpa [dictRemove, h] using ih
    · simpa [dictRemove, lookupRule, h] using ih

theorem lookupRule_dictOverwrite_self (m : List (String × RuleStats)) (k : String)
    (v : RuleStats) :
    lookupRule (dictOverwrite m k v) k = (lookupRule m k).map (fun _ => v) := by
  induction m with
  | nil => rfl
  | cons ab m ih =>
    obtain ⟨a, b⟩ := ab
    by_cases h : a = k
    · simp [dictOverwrite, lookupRule, h]
    · simp [dictOverwrite, lookupRule, h, ih]

theorem lookupRule_dictOverwrite_other (m : List (String × RuleStats)) (k x : String)
    (v : RuleStats) (hx : x ≠ k) :
    lookupRule (dictOverwrite m k v) x = lookupRule m x := by
  have hkx : ¬ k = x := fun hc => hx hc.symm
  induction m with
  | nil => rfl
  | cons ab m ih =>
    obtain ⟨a, b⟩ := ab
    by_cases h : a = k
    · simp [dictOverwrite, lookupRule, h, hkx, ih]
    · by_cases hax : a = x
      · subst hax
        simp [dictOverwrite, lookupRule, h]
      · simp [dictOverwrite, lookupRule, h, hax, ih]

theorem lookupRule_append (m m2 : List (String × RuleStats)) (x : String) :
    lookupRule (m ++ m2) x =
      match lookupRule m x with
      | some v => some v
      | none => lookupRule m2 x := by
  induction m with
  | nil => simp [lookupRule]
  | cons ab m ih =>
    obtain ⟨a, b⟩ := ab
    by_cases h : a = x <;> simp [lookupRule, h, ih]

theorem lookupRule_dictInsert_self (m : List (String × RuleStats)) (k : String)
    (v : RuleStats) : lookupRule (dictInsert m k v) k = some v := by
  unfold dictInsert
  by_cases h : (lookupRule m k).isSome
  · rw [if_pos h, lookupRule_dictOverwrite_self]
    obtain ⟨w, hw⟩ := Option.isSome_iff_exists.mp h
    simp [hw]
  · rw [if_neg h, lookupRule_append]
    rw [Option.not_isSome_iff_eq_none] at h
    rw [h]
    simp [lookupRule]

theorem lookupRule_dictInsert_other (m : List (String × RuleStats)) (k x : String)
    (v : RuleStats) (hx : x ≠ k) : lookupRule (dictInsert m k v) x = lookupRule m x := by
  have hkx : ¬ k = x := fun hc => hx hc.symm
  unfold dictInsert
  by_cases h : (lookupRule m k).isSome
  · rw [if_pos h]
    exact lookupRule_dictOverwrite_other m k x v hx
  · rw [if_neg h, lookupRule_append]
    cases hm : lookupRule m x with
    | some w => rfl
    | none => simp [lookupRule, hkx]

/-- JSON values: the result type of the `json.loads` model. -/
inductive Json where
  | null
  | bool (b : Bool)
  | num (q : Rat)
  | str (s : String)
  | arr (xs : List Json)
  | obj (fields : List (String × Json))
deriving Repr

/-- Whitespace characters `json.loads` skips between tokens. -/
def isJsonWs (c : Char) : Bool :=
  c = ' ' || c = '\t' || c = '\n' || c = '\r'

/-- Drop leading JSON whitespace. -/
def skipWs : List Char → List Char
  | [] => []
  | c :: cs => if isJsonWs c then skipWs cs else c :: cs

/-- Parse the body of a JSON string after the opening quote, handling the
basic escape sequences (the model omits the unicode escape, which no
theorem below exercises). -/
def parseStringBody : List Char → Option (String × List Char)
  | [] => none
  | c :: rest =>
    if c = '"' then some ("", rest)
    else if c = '\\' then
      match rest with
      | [] => none
      | e :: rest2 =>
        let ec : Option Char :=
          if e = '"' then some '"'
          else if e = '\\' then some '\\'
          else if e = '/' then some '/'
          else if e = 'n' then some '\n'
          else if e = 't' then some '\t'
          else if e = 'r' then some '\r'
          else if e = 'b' then some (Char.ofNat 8)
          else if e = 'f' then some (Char.ofNat 12)
          else none
        match ec with
        | none => none
        | some c2 => (parseStringBody rest2).map (fun p => (String.mk (c2 :: p.1.data), p.2))
    else (parseStringBody rest).map (fun p => (String.mk (c :: p.1.data), p.2))

/-- Consume leading decimal digits: value, digit count, rest. -/
def takeDigits : List Char → Nat × Nat × List Char
  | [] => (0, 0, [])
  | c :: cs =>
    if c.isDigit then
      let r := takeDigits cs
      ((c.toNat - 48) * 10 ^ r.2.1 + r.1, r.2.1 + 1, r.2.2)
    else (0, 0, c :: cs)

/-- Parse an unsigned JSON number: integer part with optional fraction (the
model omits the exponent form, which no theorem below exercises). -/
def parseNumberAux (cs : List Char) : Option (Rat × List Char) :=
  match cs with
  | [] => none
  | c :: _ =>
    if c.isDigit then
      let r := takeDigits cs
      match r.2.2 with
      | '.' :: c2 :: cs2 =>
        if c2.isDigit then
          let f := takeDigits (c2 :: cs2)
          some ((r.1 : Rat) + (f.1 : Rat) / ((10 : Rat) ^ f.2.1), f.2.2)
        else none
      | rest => some ((r.1 : Rat), rest)
    else none

/-- Parse a JSON number with optional leading minus sign. -/
def parseNumber (cs : List Char) : Option (Rat × List Char) :=
  match cs with
  | '-' :: cs1 => (parseNumberAux cs1).map (fun p => (-p.1, p.2))
  | cs1 => parseNumberAux cs1

mutual

/-- Parse one JSON value of the `json.loads` grammar (object, array, string,
number, true/false/null), with a fuel bound on the recursion. -/
def parseValue : Nat → List Char → Option (Json × List Char)
  | 0, _ => none
  | Nat.succ fuel, cs =>
    match skipWs cs with
    | [] => none
    | c :: rest =>
      if c = '{' then
        match skipWs rest with
        | '}' :: r2 => some (Json.obj [], r2)
        | r2 =>
          match parseMembers fuel r2 with
          | some (fs, r3) => some (Json.obj fs, r3)
          | none => none
      else if c = '[' then
        match skipWs rest with
        | ']' :: r2 => some (Json.arr [], r2)
        | r2 =>
          match parseElems fuel r2 with
          | some (xs, r3) => some (Json.arr xs, r3)
          | none => none
      else if c = '"' then
        match parseStringBody rest with
        | some (s, r2) => some (Json.str s, r2)
        | none => none
      else if c = 't' then
        match rest with
        | 'r' :: 'u' :: 'e' :: r2 => some (Json.bool true, r2)
        | _ => none
      else if c = 'f' then
        match rest with
        | 'a' :: 'l' :: 's' :: 'e' :: r2 => some (Json.bool false, r2)
        | _ => none
      else if c = 'n' then
        match rest with
        | 'u' :: 'l' :: 'l' :: r2 => some (Json.null, r2)
        | _ => none
      else if c = '-' || c.isDigit then
        match parseNumber (c :: rest) with
        | some (q, r2) => some (Json.num q, r2)
        | none => none
      else none

/-- Parse the comma-separated members of a nonempty JSON object, up to and
including the closing brace. -/
def parseMembers : Nat → List Char → Option (List (String × Json) × List Char)
  | 0, _ => none
  | Nat.succ fuel, cs =>
    match skipWs cs with
    | '"' :: rest =>
      match parseStringBody rest with
      | some (k, r2) =>
        match skipWs r2 with
        | ':' :: r3 =>
          match parseValue fuel r3 with
          | some (v, r4) =>
            match skipWs r4 with
            | ',' :: r5 => (parseMembers fuel r5).map (fun p => ((k, v) :: p.1, p.2))
            | '}' :: r5 => some ([(k, v)], r5)
            | _ => none
          | none => none
        | _ => none
      | none => none
    | _ => none

/-- Parse the comma-separated elements of a nonempty JSON array, up to and
including the closing bracket. -/
def parseElems : Nat → List Char → Option (List Json × List Char)
  | 0, _ => none
  | Nat.succ fuel, cs =>
    match parseValue fuel cs with
    | some (v, r2) =>
      match skipWs r2 with
      | ',' :: r3 => (parseElems fuel r3).map (fun p => (v :: p.1, p.2))
      | ']' :: r3 => some ([v], r3)
      | _ => none
    | none => none

end

/-- Model of the stdlib `json.loads`: parse exactly one JSON document with
optional surrounding whitespace; any other input raises `JSONDecodeError`,
modelled as `none`. Every recursion step of the grammar consumes input, so
`length + 1` fuel is enough for any input that parses. -/
def json_loads (s : String) : Option Json :=
  match parseValue (s.data.length + 1) s.data with
  | some (v, rest) => if skipWs rest = [] then some v else none
  | none => none

/-- The parse step of render_analyst (app.py line 108):
`data = json.loads(response.text)` applied to the raw response text, with
no stripping or cleanup of the surrounding free text. -/
def parse_ai_response (responseText : String) : Option Json :=
  json_loads responseText

/-- Characters a JSON document may start with (after leading whitespace). -/
def jsonStartChar (c : Char) : Bool :=
  c = '{' || c = '[' || c = '"' || c = 't' || c = 'f' || c = 'n' || c = '-' || c.isDigit

theorem getElem?_map_append_mid (f : Trade → Trade) (l1 l2 : List Trade) (t : Trade) :
    (List.map f (l1 ++ t :: l2))[l1.length]? = some (f t) := by
  rw [List.map_append, List.map_cons]
  rw [List.getElem?_append_right (by simp)]
  simp

/-- A sample pending trade used to instantiate the audit theorems. -/
def t0 : Trade :=
  { id := 1, timestamp := "2024-01-01 00:00", verdict_text := "logic", outcome := none,
    rule_applied := "Avoid chasing vertical moves.", entry_price := 8, target_price := 10,
    stop_price := 5 }

/-- A sample config whose only rule is the one `t0` applied. -/
def cfg0 : Config :=
  { version := 13/10,
    rule_stats := [("Avoid chasing vertical moves.", { wins := 2, losses := 3 })] }

/-- C1: for every pending trade in the log, an audit pass whose price is at
or above the trade's target closes it as a win and increments the wins
counter of the trade's applied rule by exactly one for this trade (plus
one per other pending trade of the same rule that also hits its target),
leaving the loss counter without a contribution from this trade. -/
theorem audit_target_win_increments (price : Rat) (l1 l2 : List Trade) (t : Trade)
    (cfg : Config) (log2 : List Trade) (cfg2 : Config) (s : RuleStats)
    (hpend : t.outcome = none) (hhit : t.target_price ≤ price)
    (hs : lookupRule cfg.rule_stats t.rule_applied = some s)
    (hrun : automated_audit price (l1 ++ t :: l2) cfg = some (log2, cfg2)) :
    log2[l1.length]? = some { t with outcome := some "Win ✅" } ∧
    lookupRule cfg2.rule_stats t.rule_applied =
      some { wins := s.wins + winHits price t.rule_applied l1 + 1 +
               winHits price t.rule_applied l2,
             losses := s.losses + lossHits price t.rule_applied l1 +
               lossHits price t.rule_applied l2 } := by
  have htr : tradeResult price t = { t with outcome := some "Win ✅" } := by
    simp [tradeResult, hpend, hhit]
  constructor
  · rw [automated_audit_trades price _ cfg log2 cfg2 hrun, ← htr]
    exact getElem?_map_append_mid (tradeResult price) l1 l2 t
  · rw [automated_audit_lookup price _ cfg log2 cfg2 t.rule_applied s hrun hs]
    have hw : winHit price t.rule_applied t = true := by simp [winHit, hpend, hhit]
    have hl : lossHit price t.rule_applied t = false := by simp [lossHit, hhit]
    have hcw : (if winHit price t.rule_applied t = true then 1 else 0) = 1 := by simp [hw]
    have hcl : (if lossHit price t.rule_applied t = true then 1 else 0) = 0 := by simp [hl]
    simp only [winHits, lossHits, List.countP_append, List.countP_cons, hcw, hcl,
      Option.some.injEq, RuleStats.mk.injEq]
    constructor <;> omega

theorem audit_target_win_increments_witness :
    ([{ t0 with outcome := some "Win ✅" }][0]? = some { t0 with outcome := some "Win ✅" }) ∧
    lookupRule
      (Config.mk (13/10) [("Avoid chasing vertical moves.", { wins := 3, losses := 3 })]).rule_stats
      t0.rule_applied =
      some { wins := 2 + winHits 10 t0.rule_applied [] + 1 + winHits 10 t0.rule_applied [],
             losses := 3 + lossHits 10 t0.rule_applied [] + lossHits 10 t0.rule_applied [] } :=
  audit_target_win_increments 10 [] [] t0 cfg0 [{ t0 with outcome := some "Win ✅" }]
    (Config.mk (13/10) [("Avoid chasing vertical moves.", { wins := 3, losses := 3 })])
    { wins := 2, losses := 3 } rfl (by decide) rfl (by rfl)

/-- A pending trade whose target lies at or below its stop; a price of 1 is
at or below the stop (2) and also at or above the target (1). -/
def tBoth : Trade :=
  { id := 2, timestamp := "2024-01-01 00:05", verdict_text := "short setup", outcome := none,
    rule_applied := "Check RSI for 70+ levels.", entry_price := 3/2, target_price := 1,
    stop_price := 2 }

/-- A sample config whose only rule is the one `tBoth` applied. -/
def cfgB : Config :=
  { version := 13/10,
    rule_stats := [("Check RSI for 70+ levels.", { wins := 0, losses := 0 })] }

/-- C2 counterexample: `tBoth` is pending and the price 1 is at or below its
stop price, yet the audit closes it as a win (the win branch is checked
first) and increments the wins counter, leaving losses at 0 rather than
setting the outcome to a loss. -/
theorem audit_stop_loss_claim_counterexample :
    (1 : Rat) ≤ tBoth.stop_price ∧ tBoth.outcome = none ∧
    automated_audit 1 [tBoth] cfgB =
      some ([{ tBoth with outcome := some "Win ✅" }],
            Config.mk (13/10) [("Check RSI for 70+ levels.", { wins := 1, losses := 0 })]) ∧
    some "Win ✅" ≠ some "Loss ❌" :=
  ⟨by decide, rfl, by rfl, by decide⟩

/-- C2 amended: for every pending trade, an audit pass whose price is at or
below the trade's stop AND strictly below its target closes it as a loss
and increments the loss counter of the trade's applied rule by exactly one
for this trade (a price that also reaches the target is closed as a win
instead, because the win branch is checked first). -/
theorem audit_stop_loss_increments (price : Rat) (l1 l2 : List Trade) (t : Trade)
    (cfg : Config) (log2 : List Trade) (cfg2 : Config) (s : RuleStats)
    (hpend : t.outcome = none) (hbelow : price < t.target_price)
    (hstop : price ≤ t.stop_price)
    (hs : lookupRule cfg.rule_stats t.rule_applied = some s)
    (hrun : automated_audit price (l1 ++ t :: l2) cfg = some (log2, cfg2)) :
    log2[l1.length]? = some { t with outcome := some "Loss ❌" } ∧
    lookupRule cfg2.rule_stats t.rule_applied =
      some { wins := s.wins + winHits price t.rule_applied l1 +
               winHits price t.rule_applied l2,
             losses := s.losses + lossHits price t.rule_applied l1 + 1 +
               lossHits price t.rule_applied l2 } := by
  have hnw : ¬ t.target_price ≤ price := not_le.mpr hbelow
  have htr : tradeResult price t = { t with outcome := some "Loss ❌" } := by
    simp [tradeResult, hpend, hnw, hstop]
  constructor
  · rw [automated_audit_trades price _ cfg log2 cfg2 hrun, ← htr]
    exact getElem?_map_append_mid (tradeResult price) l1 l2 t
  · rw [automated_audit_lookup price _ cfg log2 cfg2 t.rule_applied s hrun hs]
    have hw : winHit price t.rule_applied t = false := by simp [winHit, hnw]
    have hl : lossHit price t.rule_applied t = true := by
      simp [lossHit, hpend, hnw, hstop]
    have hcw : (if winHit price t.rule_applied t = true then 1 else 0) = 0 := by simp [hw]
    have hcl : (if lossHit price t.rule_applied t = true then 1 else 0) = 1 := by simp [hl]
    simp only [winHits, lossHits, List.countP_append, List.countP_cons, hcw, hcl,
      Option.some.injEq, RuleStats.mk.injEq]
    constructor <;> omega

theorem audit_stop_loss_increments_witness :
    ([{ t0 with outcome := some "Loss ❌" }][0]? = some { t0 with outcome := some "Loss ❌" }) ∧
    lookupRule
      (Config.mk (13/10) [("Avoid chasing vertical moves.", { wins := 2, losses := 4 })]).rule_stats
      t0.rule_applied =
      some { wins := 2 + winHits 4 t0.rule_applied [] + winHits 4 t0.rule_applied [],
             losses := 3 + lossHits 4 t0.rule_applied [] + 1 + lossHits 4 t0.rule_applied [] } :=
  audit_stop_loss_increments 4 [] [] t0 cfg0 [{ t0 with outcome := some "Loss ❌" }]
    (Config.mk (13/10) [("Avoid chasing vertical moves.", { wins := 2, losses := 4 })])
    { wins := 2, losses := 3 } rfl (by decide) (by decide) rfl (by rfl)

/-- C3: for every pending trade whose stop is strictly below the audit price
and whose target is strictly above it, the audit pass leaves the trade's
outcome NULL, contributes nothing to the rule's win/loss counters (no count
for this trade), and a pass over this trade alone returns the trade and the
config completely unchanged. -/
theorem audit_between_stays_pending (price : Rat) (l1 l2 : List Trade) (t : Trade)
    (cfg : Config) (log2 : List Trade) (cfg2 : Config) (s : RuleStats)
    (hpend : t.outcome = none) (hlo : t.stop_price < price) (hhi : price < t.target_price)
    (hs : lookupRule cfg.rule_stats t.rule_applied = some s)
    (hrun : automated_audit price (l1 ++ t :: l2) cfg = some (log2, cfg2)) :
    log2[l1.length]? = some t ∧
    lookupRule cfg2.rule_stats t.rule_applied =
      some { wins := s.wins + winHits price t.rule_applied l1 +
               winHits price t.rule_applied l2,
             losses := s.losses + lossHits price t.rule_applied l1 +
               lossHits price t.rule_applied l2 } ∧
    automated_audit price [t] cfg = some ([t], cfg) := by
  have hnw : ¬ t.target_price ≤ price := not_le.mpr hhi
  have hnl : ¬ price ≤ t.stop_price := not_le.mpr hlo
  have htr : tradeResult price t = t := by simp [tradeResult, hpend, hnw, hnl]
  refine ⟨?_, ?_, ?_⟩
  · have hidx := getElem?_map_append_mid (tradeResult price) l1 l2 t
    rw [htr] at hidx
    rw [automated_audit_trades price _ cfg log2 cfg2 hrun]
    exact hidx
  · rw [automated_audit_lookup price _ cfg log2 cfg2 t.rule_applied s hrun hs]
    have hw : winHit price t.rule_applied t = false := by simp [winHit, hnw]
    have hl : lossHit price t.rule_applied t = false := by simp [lossHit, hnl]
    have hcw : (if winHit price t.rule_applied t = true then 1 else 0) = 0 := by simp [hw]
    have hcl : (if lossHit price t.rule_applied t = true then 1 else 0) = 0 := by simp [hl]
    simp only [winHits, lossHits, List.countP_append, List.countP_cons, hcw, hcl,
      Option.some.injEq, RuleStats.mk.injEq]
    constructor <;> omega
  · have hskip : auditTrade price t cfg = some (t, cfg) := by
      simp [auditTrade, hpend, hnw, hnl]
    simp [automated_audit, hskip]

theorem audit_between_stays_pending_witness :
    ([t0][0]? = some t0) ∧
    lookupRule cfg0.rule_stats t0.rule_applied =
      some { wins := 2 + winHits 7 t0.rule_applied [] + winHits 7 t0.rule_applied [],
             losses := 3 + lossHits 7 t0.rule_applied [] + lossHits 7 t0.rule_applied [] } ∧
    automated_audit 7 [t0] cfg0 = some ([t0], cfg0) :=
  audit_between_stays_pending 7 [] [] t0 cfg0 [t0] cfg0 { wins := 2, losses := 3 }
    rfl (by decide) (by decide) rfl (by rfl)

/-- C7: the audit only selects trades whose outcome is NULL, so a trade whose
outcome has already been set is returned unchanged, with every field intact,
by any later audit pass at any price. -/
theorem audit_settled_immutable (price : Rat) (log : List Trade) (cfg : Config)
    (log2 : List Trade) (cfg2 : Config) (i : Nat) (t : Trade) (o : String)
    (hrun : automated_audit price log cfg = some (log2, cfg2))
    (hi : log[i]? = some t) (ho : t.outcome = some o) :
    log2[i]? = some t := by
  rw [automated_audit_trades price log cfg log2 cfg2 hrun]
  rw [List.getElem?_map, hi]
  simp [tradeResult, ho]

/-- A trade already settled as a win, used to instantiate C7. -/
def tDone : Trade := { t0 with id := 3, outcome := some "Win ✅" }

theorem audit_settled_immutable_witness : [tDone][0]? = some tDone :=
  audit_settled_immutable 0 [tDone] cfg0 [tDone] cfg0 0 tDone "Win ✅" (by rfl) rfl rfl

/-- C4: when `sentinel_config.json` does not exist, `load_config` returns the
documented default: version 1.3 and exactly the two rules
"Avoid chasing vertical moves." and "Check RSI for 70+ levels.", each with
zero wins and zero losses. -/
theorem load_config_missing_defaults :
    (load_config none).version = 13/10 ∧
    (load_config none).rule_stats.length = 2 ∧
    (load_config none).rule_stats.map Prod.fst =
      ["Avoid chasing vertical moves.", "Check RSI for 70+ levels."] ∧
    lookupRule (load_config none).rule_stats "Avoid chasing vertical moves." =
      some { wins := 0, losses := 0 } ∧
    lookupRule (load_config none).rule_stats "Check RSI for 70+ levels." =
      some { wins := 0, losses := 0 } :=
  ⟨rfl, rfl, rfl, rfl, rfl⟩

/-- C8: after deleting the database file, `init_db`'s idempotent
`CREATE TABLE IF NOT EXISTS` recreates an empty trade log, and reads of an
existing table are untouched; after deleting the config file, `load_config`
returns the default rule set. Neither read raises (both are total). -/
theorem reset_files_reads_defaults :
    init_db none = [] ∧
    init_db (some [t0]) = [t0] ∧
    (load_config none).version = 13/10 ∧
    (load_config none).rule_stats =
      [("Avoid chasing vertical moves.", { wins := 0, losses := 0 }),
       ("Check RSI for 70+ levels.", { wins := 0, losses := 0 })] :=
  ⟨rfl, rfl, rfl, rfl⟩

/-- C9: the audit pass is partial. A pending trade whose `rule_applied` is
not a key of the config's rule_stats makes the pass abort with a KeyError
(modelled as `none`) whenever the price reaches its target or stop; and the
pass is total (returns `some`) whenever every pending trade's applied rule
is present in the config. -/
theorem automated_audit_partial_missing_rule (price : Rat) :
    (∀ (l1 l2 : List Trade) (t : Trade) (cfg : Config),
      t.outcome = none →
      lookupRule cfg.rule_stats t.rule_applied = none →
      (t.target_price ≤ price ∨ price ≤ t.stop_price) →
      automated_audit price (l1 ++ t :: l2) cfg = none) ∧
    (∀ (log : List Trade) (cfg : Config),
      (∀ t ∈ log, t.outcome = none → (lookupRule cfg.rule_stats t.rule_applied).isSome) →
      (automated_audit price log cfg).isSome) := by
  constructor
  · intro l1 l2 t cfg hpend hmiss hhit
    exact automated_audit_missing_rule price t hpend hhit l1 cfg hmiss l2
  · intro log cfg hall
    exact automated_audit_isSome price log cfg hall

/-- A pending trade applying a rule that is not in `cfg0`. -/
def tMiss : Trade := { t0 with id := 4, rule_applied := "Some forgotten rule." }

theorem automated_audit_partial_missing_rule_witness :
    automated_audit 10 ([] ++ tMiss :: []) cfg0 = none ∧
    (automated_audit 10 [t0] cfg0).isSome :=
  ⟨(automated_audit_partial_missing_rule 10).1 [] [] tMiss cfg0 rfl rfl (Or.inl (by decide)),
   (automated_audit_partial_missing_rule 10).2 [t0] cfg0 (by decide)⟩

/-- C6: the evolution action deletes the worst-performing rule's entry from
the rule-statistics mapping and inserts a fresh entry under the
AI-suggested replacement text, leaving the version untouched. `worst` is
the key of the worst-performing rule and `suggestion` the AI-suggested
text, both inputs to the (spec-modelled) action. -/
theorem evolveConfig_replaces_worst (cfg : Config) (worst suggestion : String)
    (_hmem : (lookupRule cfg.rule_stats worst).isSome) (hne : suggestion ≠ worst) :
    lookupRule (evolveConfig cfg worst suggestion).rule_stats worst = none ∧
    lookupRule (evolveConfig cfg worst suggestion).rule_stats suggestion =
      some { wins := 0, losses := 0 } ∧
    (evolveConfig cfg worst suggestion).version = cfg.version := by
  refine ⟨?_, ?_, rfl⟩
  · show lookupRule (dictInsert (dictRemove cfg.rule_stats worst) suggestion _) worst = none
    rw [lookupRule_dictInsert_other _ suggestion worst _ hne.symm]
    exact lookupRule_dictRemove cfg.rule_stats worst
  · exact lookupRule_dictInsert_self _ _ _

theorem evolveConfig_replaces_worst_witness :
    lookupRule (evolveConfig cfg0 "Avoid chasing vertical moves."
      "Wait for a pullback before entering.").rule_stats "Avoid chasing vertical moves." = none ∧
    lookupRule (evolveConfig cfg0 "Avoid chasing vertical moves."
      "Wait for a pullback before entering.").rule_stats "Wait for a pullback before entering." =
      some { wins := 0, losses := 0 } ∧
    (evolveConfig cfg0 "Avoid chasing vertical moves."
      "Wait for a pullback before entering.").version = cfg0.version :=
  evolveConfig_replaces_worst cfg0 "Avoid chasing vertical moves."
    "Wait for a pullback before entering." (by decide) (by decide)

/-- The per-image work of the Process and Audit button once a response has
parsed: the prompt is built from the chosen best rule (app.py line 102) and
the inserted pending row records that same rule (app.py lines 113-114).
Python's `max` raises on an empty dict, modelled as `none`. -/
def analysisStep (cfg : Config) (id : Nat) (now : String) (d : TradeData) :
    Option (String × Trade) :=
  match bestRule cfg.rule_stats with
  | none => none
  | some p => some (analysisPrompt p.1, logNewTrade id now p.1 d)

/-- C10: whenever the rule picker returns a rule, that rule belongs to the
config and maximises the Laplace-smoothed win rate
(wins + 1) / (wins + losses + 1) over all rules; and the analysis step
sends exactly that rule in the prompt and records exactly that rule as
`rule_applied` on the new pending trade. -/
theorem best_rule_maximises (cfg : Config) (p : String × RuleStats)
    (hbest : bestRule cfg.rule_stats = some p) :
    p ∈ cfg.rule_stats ∧
    (∀ q ∈ cfg.rule_stats, smoothedRate q.2 ≤ smoothedRate p.2) ∧
    ∀ (id : Nat) (now : String) (d : TradeData),
      analysisStep cfg id now d = some (analysisPrompt p.1, logNewTrade id now p.1 d) ∧
      (logNewTrade id now p.1 d).rule_applied = p.1 ∧
      (logNewTrade id now p.1 d).outcome = none := by
  cases hm : cfg.rule_stats with
  | nil => rw [hm] at hbest; exact absurd hbest (by simp [bestRule])
  | cons x xs =>
    rw [hm] at hbest
    have hp : p = maxBy x xs := by
      simpa [bestRule] using hbest.symm
    subst hp
    refine ⟨?_, ?_, ?_⟩
    · rcases maxBy_mem xs x with h | h
      · rw [h]; exact List.mem_cons_self x xs
      · exact List.mem_cons_of_mem x h
    · intro q hq
      obtain ⟨h1, h2⟩ := maxBy_le xs x
      rcases List.mem_cons.mp hq with rfl | hq
      · exact h1
      · exact h2 q hq
    · intro id now d
      refine ⟨?_, rfl, rfl⟩
      unfold analysisStep
      rw [hm]
      rfl

/-- A config with two rules where the second has the strictly better
smoothed win rate: (0+1)/(0+1+1) = 1/2 versus (1+1)/(1+0+1) = 1. -/
def cfgW : Config :=
  { version := 13/10,
    rule_stats := [("a", { wins := 0, losses := 1 }), ("b", { wins := 1, losses := 0 })] }

/-- Sample parsed response data for the analysis step. -/
def dW : TradeData :=
  { verdict := "BUY", price := 100, target := 110, stop := 95, confidence := 80,
    logic := "momentum intact" }

theorem best_rule_maximises_witness :
    (("b", { wins := 1, losses := 0 }) : String × RuleStats) ∈ cfgW.rule_stats ∧
    smoothedRate { wins := 0, losses := 1 } ≤ smoothedRate { wins := 1, losses := 0 } ∧
    analysisStep cfgW 5 "2024-01-01 00:10" dW =
      some (analysisPrompt "b", logNewTrade 5 "2024-01-01 00:10" "b" dW) ∧
    (logNewTrade 5 "2024-01-01 00:10" "b" dW).rule_applied = "b" := by
  have hbest : bestRule cfgW.rule_stats = some ("b", { wins := 1, losses := 0 }) := by
    have h : smoothedRate { wins := 0, losses := 1 } < smoothedRate { wins := 1, losses := 0 } := by
      norm_num [smoothedRate]
    simp [cfgW, bestRule, maxBy, h]
  have hmain := best_rule_maximises cfgW ("b", { wins := 1, losses := 0 }) hbest
  exact ⟨hmain.1,
    hmain.2.1 ("a", { wins := 0, losses := 1 }) (by simp [cfgW]),
    (hmain.2.2 5 "2024-01-01 00:10" dW).1,
    (hmain.2.2 5 "2024-01-01 00:10" dW).2.1⟩

theorem parseValue_bad_start (fuel : Nat) (c : Char) (cs : List Char)
    (hws : isJsonWs c = false) (hstart : jsonStartChar c = false) :
    parseValue fuel (c :: cs) = none := by
  cases fuel with
  | zero => rfl
  | succ fuel =>
    have hskip : skipWs (c :: cs) = c :: cs := by simp [skipWs, hws]
    simp only [jsonStartChar, Bool.or_eq_false_iff, decide_eq_false_iff_not] at hstart
    obtain ⟨⟨⟨⟨⟨⟨⟨h1, h2⟩, h3⟩, h4⟩, h5⟩, h6⟩, h7⟩, h8⟩ := hstart
    simp [parseValue, hskip, h1, h2, h3, h4, h5, h6, h7, h8]

/-- C5 counterexample: an AI response whose text contains a JSON object
surrounded by extra free text makes `json.loads(response.text)` fail
(`none`), even though the embedded JSON object on its own parses fine —
there is no stripping or recovery in the analysis step. -/
theorem parse_ai_response_embedded_json_counterexample :
    parse_ai_response "Sure! \x7b\"verdict\": \"BUY\", \"price\": 42\x7d Enjoy." = none ∧
    json_loads "\x7b\"verdict\": \"BUY\", \"price\": 42\x7d" =
      some (Json.obj [("verdict", Json.str "BUY"), ("price", Json.num 42)]) :=
  ⟨rfl, rfl⟩

/-- C5 amended: the analysis step applies `json.loads` to the response text
directly, with no stripping or cleanup; any response whose first character
is free text (neither whitespace nor a character that can start a JSON
document) fails to parse, no matter what follows it. -/
theorem parse_ai_response_no_cleanup (c : Char) (cs : List Char)
    (hws : isJsonWs c = false) (hstart : jsonStartChar c = false) :
    parse_ai_response (String.mk (c :: cs)) = none := by
  unfold parse_ai_response json_loads
  rw [show (String.mk (c :: cs)).data = c :: cs from rfl]
  rw [parseValue_bad_start ((c :: cs).length + 1) c cs hws hstart]

theorem parse_ai_response_no_cleanup_witness :
    parse_ai_response (String.mk ('H' :: "ere is your analysis:".data)) = none :=
  parse_ai_response_no_cleanup 'H' "ere is your analysis:".data rfl rfl
